import Mathlib

/-
Verification of the recording-and-trim orchestrator of owlcms/obsreplays.

Shallow embedding of the Go sources:
  - internal/recording/recorder.go   (buildTrimmingArgs, StopRecording, ForceStopRecordings)
  - internal/recording/configurator.go (sendIdentify, sendMessage of the OBS client)

Strings are modelled as lists of characters (all the strings that matter here
are ASCII, so Go byte indices coincide with character indices).  Filesystem,
process, network and clock effects are modelled by an explicit effect trace
and an environment of oracles that decide the outcome of each external call.
filepath.Join is modelled as concatenation with a single separator character;
the path-cleaning details of the Go library are irrelevant to the claims.
-/

/-- Strings as lists of characters (Go byte strings, ASCII). -/
abbrev Str := List Char

/-- Models Go strings.HasSuffix. -/
def goHasSuffix (s suf : Str) : Bool := suf.isSuffixOf s

/-- The pattern sub occurs in s at index i. -/
def occursAt (sub s : Str) (i : Nat) : Bool := sub.isPrefixOf (s.drop i)

/-- Models Go strings.Contains. -/
def goContains (s sub : Str) : Bool :=
  (List.range (s.length + 1)).any (occursAt sub s)

/-- Models Go strings.LastIndex; none plays the role of Go's -1. -/
def goLastIndex (s sub : Str) : Option Nat :=
  ((List.range (s.length + 1)).filter (occursAt sub s)).getLast?

/-- Models Go strings.TrimSuffix. -/
def goTrimEnd (s suf : Str) : Str :=
  if suf.isSuffixOf s then s.take (s.length - suf.length) else s

/-- Models Go strings.TrimPrefix (drops a leading pattern when present). -/
def goTrimStart (s pre : Str) : Str :=
  if pre.isPrefixOf s then s.drop pre.length else s

/-- Worker for replaceAll, structurally recursive on a fuel argument so that
it reduces inside the kernel.  Every recursive call strictly shortens the
subject string, so fuel = length of the subject never runs out and the
fuel-exhausted branch is unreachable. -/
def replaceAllFuel : Nat → Str → Str → Str → Str
  | _, s, [], rep => rep ++ s.flatMap (fun c => c :: rep)
  | 0, s, _ :: _, _ => s
  | _ + 1, [], _ :: _, _ => []
  | fuel + 1, c :: rest, p :: ps, rep =>
    if (p :: ps).isPrefixOf (c :: rest) then
      rep ++ replaceAllFuel fuel ((c :: rest).drop (p :: ps).length) (p :: ps) rep
    else c :: replaceAllFuel fuel rest (p :: ps) rep

/-- Models Go strings.ReplaceAll.  For an empty pattern Go inserts the
replacement before every character and at the end; otherwise non-overlapping
occurrences are replaced left to right. -/
def replaceAll (s pat rep : Str) : Str := replaceAllFuel s.length s pat rep

/-- Models fmt.Sprintf with verb d applied to an integer. -/
def intToStr (i : Int) : Str := (toString i).data

/-- Models fmt.Sprintf with verb d applied to a Go int used as a counter. -/
def natToStr (n : Nat) : Str := (toString n).data

/-- Models filepath.Join of a directory and one more component (separator
abstracted to a slash; recorder.go only ever joins with separator-free names). -/
def pathJoin (dir name : Str) : Str := dir ++ '/' :: name

/-- Models filepath.Base for the paths built here. -/
def pathBase (p : Str) : Str :=
  match goLastIndex p ['/'] with
  | none => p
  | some i => p.drop (i + 1)

/-- recorder.go buildTrimmingArgs: the ffmpeg argument list for one camera
file.  A seek argument is emitted only for a strictly positive duration; the
division by 1000 is Go int64 division, reached only for positive values where
it is plain truncation. -/
def buildTrimmingArgs (trimDuration : Int) (currentFileName finalFileName : Str) : List Str :=
  let args : List Str := ["-y".data]
  let args := args ++ (if trimDuration > 0 then ["-ss".data, intToStr (trimDuration / 1000)] else [])
  let args := args ++ ["-i".data, currentFileName, "-c".data, "copy".data]
  args ++ [finalFileName]

/-- The status phases surfaced through httpServer.SendStatus. -/
inductive Phase where
  | Recording
  | Trimming
  | Ready
  deriving DecidableEq

/-- Externally visible effects of the orchestrator, in program order. -/
inductive Effect where
  | hotkey (key : String)
  | status (p : Phase) (msg : Str)
  | sleepSec (n : Nat)
  | ffmpeg (args : List Str)
  | makeDir (dir : Str)
  | copyFile (src dst : Str)
  | removeFile (path : Str)
  | warnLog (msg : Str)
  | infoLog (msg : Str)
  | errLog (msg : Str)
  deriving DecidableEq

/-- Error results of StopRecording, one constructor per return site. -/
inductive GoErr where
  | hotkeyErr (key : String)
  | readDirErr
  | noCameraFiles
  | trimErr (cam : Str)
  | mkdirErr
  | openErr (cam : Str)
  | createErr (cam : Str)
  | copyErr (cam : Str)
  deriving DecidableEq

/-- Decidable equality of StopRecording results, used to evaluate the
embedding at concrete inputs. -/
instance : DecidableEq (Except GoErr (List Str)) := fun x y =>
  match x, y with
  | .ok a, .ok b =>
    if h : a = b then isTrue (by rw [h]) else isFalse (by intro hh; cases hh; exact h rfl)
  | .error a, .error b =>
    if h : a = b then isTrue (by rw [h]) else isFalse (by intro hh; cases hh; exact h rfl)
  | .ok _, .error _ => isFalse (by intro hh; cases hh)
  | .error _, .ok _ => isFalse (by intro hh; cases hh)

/-- Environment of one StopRecording run: the process-wide state read from
the state package, the configuration, and oracles deciding the outcome of
every external call (OBS hotkeys, directory listing, ffmpeg, filesystem). -/
structure Env where
  userProfile : Str
  captureDirFiles : List Str
  readDirOk : Bool
  hotkeyOk : String → Bool
  ffmpegOk : List Str → Bool
  mkdirOk : Bool
  openOk : Str → Bool
  createOk : Str → Bool
  copyOk : Str → Str → Bool
  removeOk : Str → Bool
  lastStartTime : Int
  lastTimerStopTime : Int
  currentAthlete : Str
  currentLiftType : Str
  currentAttempt : Int
  currentSession : Str
  videoDir : Str
  timestampStr : Str

/-- The captures directory USERPROFILE/Videos/Captures. -/
def captureDirOf (env : Env) : Str :=
  pathJoin (pathJoin env.userProfile "Videos".data) "Captures".data

/-- Names kept by the discovery filter: suffix .flv and containing Camera. -/
def discoveredNames (env : Env) : List Str :=
  env.captureDirFiles.filter (fun n => goHasSuffix n ".flv".data && goContains n "Camera".data)

/-- The source files StopRecording discovers (full paths). -/
def discoveredFiles (env : Env) : List Str :=
  (discoveredNames env).map (fun n => pathJoin (captureDirOf env) n)

/-- trimDuration = state.LastTimerStopTime - state.LastStartTime - 5000. -/
def trimDurationOf (env : Env) : Int :=
  env.lastTimerStopTime - env.lastStartTime - 5000

/-- The human-readable attempt descriptor used in status messages. -/
def attemptInfoOf (env : Env) : Str :=
  replaceAll env.currentAthlete "_".data " ".data ++ " - ".data ++
    env.currentLiftType ++ " attempt ".data ++ intToStr env.currentAttempt

/-- The Trimming status message for one camera. -/
def trimMsgOf (env : Env) (cameraNum : Str) : Str :=
  "Trimming video for Camera ".data ++ cameraNum ++ ": ".data ++ attemptInfoOf env

/-- Session directory name: empty session maps to unsorted, spaces to
underscores. -/
def sessionDirName (s : Str) : Str :=
  replaceAll (if s = [] then "unsorted".data else s) " ".data "_".data

/-- Full destination directory videoDir/sessionDirName. -/
def sessionPathOf (env : Env) : Str :=
  pathJoin env.videoDir (sessionDirName env.currentSession)

/-- baseFileName = timestamp_athlete_liftType_attemptN with the athlete's
spaces replaced by underscores; the timestamp is taken once per run. -/
def attemptBaseName (env : Env) : Str :=
  env.timestampStr ++ "_".data ++ replaceAll env.currentAthlete " ".data "_".data ++
    "_".data ++ env.currentLiftType ++ "_attempt".data ++ intToStr env.currentAttempt

/-- First pass of StopRecording: for each source file whose path contains
Camera, send a Trimming status, run ffmpeg with buildTrimmingArgs, abort on
the first failure; collect the intermediate CameraN.mp4 paths. -/
def trimPass (env : Env) (dur : Int) (captureDir : Str) :
    List Str → List Effect × Except GoErr (List Str)
  | [] => ([], .ok [])
  | src :: rest =>
    match goLastIndex src "Camera".data with
    | none => trimPass env dur captureDir rest
    | some idx =>
      let cameraNum := goTrimEnd (src.drop (idx + 6)) ".flv".data
      let trimmed := pathJoin captureDir ("Camera".data ++ cameraNum ++ ".mp4".data)
      let args := buildTrimmingArgs dur src trimmed
      let pre : List Effect := [.status .Trimming (trimMsgOf env cameraNum), .ffmpeg args]
      if env.ffmpegOk args then
        let res := trimPass env dur captureDir rest
        (pre ++ res.1, res.2.map (fun ts => trimmed :: ts))
      else (pre, .error (.trimErr cameraNum))

/-- Second pass of StopRecording: copy each trimmed CameraN.mp4 into the
session directory under the shared attempt base name, aborting on the first
open/create/copy failure; collect the final paths. -/
def copyPass (env : Env) (fullSessionDir baseFileName : Str) :
    List Str → List Effect × Except GoErr (List Str)
  | [] => ([], .ok [])
  | tf :: rest =>
    let cameraNum := goTrimEnd (goTrimStart (pathBase tf) "Camera".data) ".mp4".data
    let finalName := pathJoin fullSessionDir
      (baseFileName ++ "_Camera".data ++ cameraNum ++ ".mp4".data)
    if env.openOk tf then
      if env.createOk finalName then
        if env.copyOk tf finalName then
          let res := copyPass env fullSessionDir baseFileName rest
          (.copyFile tf finalName :: res.1, res.2.map (fun fs => finalName :: fs))
        else ([.copyFile tf finalName], .error (.copyErr cameraNum))
      else ([], .error (.createErr cameraNum))
    else ([], .error (.openErr cameraNum))

/-- Final pass: best-effort removal of every source .flv file; a failed
removal is only a warning. -/
def removePass (env : Env) : List Str → List Effect
  | [] => []
  | s :: rest =>
    (if env.removeOk s then [Effect.removeFile s]
     else [Effect.removeFile s, Effect.warnLog ("Failed to remove source .flv file".data)])
      ++ removePass env rest

/-- recorder.go StopRecording: stop and reset OBS via hotkeys, wait, discover
the raw camera files, trim each to MP4, create the session directory, copy
each trimmed file to its final name, remove the raw files, publish Ready.
Returns the effect trace and either the final file list or the first error. -/
def stopRecording (env : Env) : List Effect × Except GoErr (List Str) :=
  if env.hotkeyOk "OBS_KEY_F8" then
    if env.hotkeyOk "OBS_KEY_F6" then
      if env.readDirOk then
        if (discoveredFiles env).isEmpty then
          ([.hotkey "OBS_KEY_F8", .hotkey "OBS_KEY_F6", .sleepSec 3], .error .noCameraFiles)
        else
          match trimPass env (trimDurationOf env) (captureDirOf env) (discoveredFiles env) with
          | (e1, .error e) =>
            ([.hotkey "OBS_KEY_F8", .hotkey "OBS_KEY_F6", .sleepSec 3] ++ e1, .error e)
          | (e1, .ok trimmedFiles) =>
            if env.mkdirOk then
              match copyPass env (sessionPathOf env) (attemptBaseName env) trimmedFiles with
              | (e2, .error e) =>
                ([.hotkey "OBS_KEY_F8", .hotkey "OBS_KEY_F6", .sleepSec 3] ++ e1 ++
                  [.makeDir (sessionPathOf env)] ++ e2, .error e)
              | (e2, .ok finalFiles) =>
                ([.hotkey "OBS_KEY_F8", .hotkey "OBS_KEY_F6", .sleepSec 3] ++ e1 ++
                  [.makeDir (sessionPathOf env)] ++ e2 ++
                  (Effect.sleepSec 5 :: removePass env (discoveredFiles env)) ++
                  [.status .Ready "Videos ready".data], .ok finalFiles)
            else
              ([.hotkey "OBS_KEY_F8", .hotkey "OBS_KEY_F6", .sleepSec 3] ++ e1 ++
                [.makeDir (sessionPathOf env)], .error .mkdirErr)
      else ([.hotkey "OBS_KEY_F8", .hotkey "OBS_KEY_F6", .sleepSec 3], .error .readDirErr)
    else ([.hotkey "OBS_KEY_F8", .hotkey "OBS_KEY_F6"], .error (.hotkeyErr "OBS_KEY_F6"))
  else ([.hotkey "OBS_KEY_F8"], .error (.hotkeyErr "OBS_KEY_F8"))

/-- recorder.go ForceStopRecordings: with NoVideo set, only log a simulated
stop per tracked file; otherwise send the stop hotkey and log (never raise)
a failure.  The Go function has no error return at all. -/
def forceStopRecordings (noVideo : Bool) (fileNames : List Str) (hotkeyOk : String → Bool) :
    List Effect × Except GoErr Unit :=
  if noVideo then
    (fileNames.enum.map (fun p =>
      Effect.infoLog ("Simulating forced stop recording video for Camera ".data ++
        natToStr (p.1 + 1) ++ ": ".data ++ p.2)), .ok ())
  else
    if hotkeyOk "OBS_KEY_F8" then ([.hotkey "OBS_KEY_F8"], .ok ())
    else ([.hotkey "OBS_KEY_F8", .errLog ("Failed to send F8 hotkey to OBS".data)], .ok ())

/-- Effect classifiers used for counting. -/
def isReadyStatus : Effect → Bool
  | .status .Ready _ => true
  | _ => false

def isFfmpeg : Effect → Bool
  | .ffmpeg _ => true
  | _ => false

def isRemove : Effect → Bool
  | .removeFile _ => true
  | _ => false

def isMakeDir : Effect → Bool
  | .makeDir _ => true
  | _ => false

def isCopy : Effect → Bool
  | .copyFile _ _ => true
  | _ => false

def isHotkey : Effect → Bool
  | .hotkey _ => true
  | _ => false

/-- Minimal JSON value model for the OBS WebSocket protocol messages
(configurator.go handles only numbers, strings and objects). -/
inductive JVal where
  | num (n : Int)
  | str (s : String)
  | obj (fields : List (String × JVal))

/-- Go map assignment m[k] = x on a JSON object: overwrite the key when
present, otherwise add it. -/
def setField (v : JVal) (k : String) (x : JVal) : JVal :=
  match v with
  | .obj fs =>
    .obj (if fs.any (fun p => p.1 = k) then fs.map (fun p => if p.1 = k then (k, x) else p)
          else fs ++ [(k, x)])
  | v => v

/-- configurator.go sendMessage mutates the outgoing message before writing
it: message[d][requestId] = Sprintf of the incremented request counter. -/
def addRequestId (rid : Int) : JVal → JVal
  | .obj fields =>
    .obj (fields.map (fun p =>
      if p.1 = "d" then (p.1, setField p.2 "requestId" (.str (toString rid))) else p))
  | v => v

/-- The Identify payload literally built by sendIdentify before it is handed
to sendMessage. -/
def identifyMsg : JVal := .obj [("op", .num 1), ("d", .obj [("rpcVersion", .num 1)])]

/-- configurator.go sendMessage: increment the request counter, inject the
requestId field into the d payload, write the message.  Returns the new
counter and the message actually written to the connection. -/
def sendMessage (requestID : Int) (msg : JVal) : Int × JVal :=
  (requestID + 1, addRequestId (requestID + 1) msg)

/-- configurator.go sendIdentify: sends identifyMsg through sendMessage.
A fresh client has requestID = 0 (Go zero value). -/
def sendIdentify (requestID : Int) : Int × JVal := sendMessage requestID identifyMsg

/-- Lookup of one field of a JSON object. -/
def lookupField (v : JVal) (k : String) : Option JVal :=
  match v with
  | .obj fs => ((fs.filter (fun p => p.1 = k)).head?).map (fun p => p.2)
  | _ => none

/-- The field names of a JSON object. -/
def objFieldNames : JVal → List String
  | .obj fs => fs.map (fun p => p.1)
  | _ => []

/-- The field names of the d payload of a message. -/
def dFieldNames (v : JVal) : Option (List String) :=
  (lookupField v "d").map objFieldNames

/-! ### Helper lemmas -/

theorem drop_append_plus (d l : List Char) (i : Nat) :
    (d ++ l).drop (d.length + i) = l.drop i := by
  simp [List.drop_append]

theorem goLastIndex_isSome_of_occursAt {sub s : Str} {i : Nat}
    (hi : i ≤ s.length) (h : occursAt sub s i = true) :
    (goLastIndex s sub).isSome := by
  have hmem : i ∈ (List.range (s.length + 1)).filter (occursAt sub s) := by
    refine List.mem_filter.mpr ⟨List.mem_range.mpr (by omega), h⟩
  exact List.getLast?_isSome.mpr (List.ne_nil_of_mem hmem)

theorem goContains_exists {s sub : Str} (h : goContains s sub = true) :
    ∃ i, i ≤ s.length ∧ occursAt sub s i = true := by
  rcases List.any_eq_true.mp h with ⟨i, hi, hocc⟩
  exact ⟨i, by have := List.mem_range.mp hi; omega, hocc⟩

theorem goLastIndex_pathJoin_isSome {d n sub : Str}
    (h : goContains n sub = true) :
    (goLastIndex (pathJoin d n) sub).isSome := by
  rcases goContains_exists h with ⟨i, hi, hocc⟩
  refine goLastIndex_isSome_of_occursAt (i := d.length + 1 + i) (by simp [pathJoin]; omega) ?_
  have hdrop : (pathJoin d n).drop (d.length + 1 + i) = n.drop i := by
    have : pathJoin d n = (d ++ ['/']) ++ n := by simp [pathJoin]
    rw [this]
    have hlen : d.length + 1 + i = (d ++ ['/']).length + i := by simp
    rw [hlen, drop_append_plus]
  simpa [occursAt, hdrop] using hocc

theorem discoveredFiles_lastIndex (env : Env) {s : Str}
    (hs : s ∈ discoveredFiles env) :
    (goLastIndex s "Camera".data).isSome := by
  rcases List.mem_map.mp hs with ⟨n, hn, rfl⟩
  have hf := (List.mem_filter.mp hn).2
  have hcontains : goContains n "Camera".data = true := by
    revert hf
    cases goHasSuffix n ".flv".data <;> cases h : goContains n "Camera".data <;> simp
  exact goLastIndex_pathJoin_isSome hcontains

theorem trimPass_mem {env : Env} {dur : Int} {cd : Str} {srcs : List Str} {e : Effect}
    (h : e ∈ (trimPass env dur cd srcs).1) :
    (∃ a, e = Effect.ffmpeg a) ∨ (∃ m, e = Effect.status Phase.Trimming m) := by
  induction srcs with
  | nil => simp [trimPass] at h
  | cons src rest ih =>
    rw [trimPass] at h
    rcases hidx : goLastIndex src "Camera".data with _ | idx
    · rw [hidx] at h
      exact ih h
    · rw [hidx] at h
      simp only at h
      split at h
      · rcases List.mem_append.mp h with hl | hr
        · rcases List.mem_cons.mp hl with rfl | hl2
          · exact Or.inr ⟨_, rfl⟩
          · rcases List.mem_cons.mp hl2 with rfl | hl3
            · exact Or.inl ⟨_, rfl⟩
            · simp at hl3
        · exact ih hr
      · rcases List.mem_cons.mp h with rfl | hl2
        · exact Or.inr ⟨_, rfl⟩
        · rcases List.mem_cons.mp hl2 with rfl | hl3
          · exact Or.inl ⟨_, rfl⟩
          · simp at hl3

theorem trimPass_ffmpeg_args {env : Env} {dur : Int} {cd : Str} {srcs : List Str} {a : List Str}
    (h : Effect.ffmpeg a ∈ (trimPass env dur cd srcs).1) :
    ∃ src dst, a = buildTrimmingArgs dur src dst := by
  induction srcs with
  | nil => simp [trimPass] at h
  | cons src rest ih =>
    rw [trimPass] at h
    rcases hidx : goLastIndex src "Camera".data with _ | idx
    · rw [hidx] at h
      exact ih h
    · rw [hidx] at h
      simp only at h
      split at h
      · rcases List.mem_append.mp h with hl | hr
        · rcases List.mem_cons.mp hl with heq | hl2
          · cases heq
          · rcases List.mem_cons.mp hl2 with heq | hl3
            · cases heq; exact ⟨_, _, rfl⟩
            · simp at hl3
        · exact ih hr
      · rcases List.mem_cons.mp h with heq | hl2
        · cases heq
        · rcases List.mem_cons.mp hl2 with heq | hl3
          · cases heq; exact ⟨_, _, rfl⟩
          · simp at hl3

theorem trimPass_ffmpeg_le (env : Env) (dur : Int) (cd : Str) (srcs : List Str) :
    (trimPass env dur cd srcs).1.countP isFfmpeg ≤ srcs.length := by
  induction srcs with
  | nil => simp [trimPass]
  | cons src rest ih =>
    rw [trimPass]
    rcases goLastIndex src "Camera".data with _ | idx
    · simpa using Nat.le_succ_of_le ih
    · simp only
      split
      · simp [List.countP_append, List.countP_cons, isFfmpeg]
        omega
      · simp [List.countP_cons, isFfmpeg]

theorem trimPass_ok {env : Env} {dur : Int} {cd : Str} {srcs : List Str}
    {effs : List Effect} {ts : List Str}
    (h : trimPass env dur cd srcs = (effs, .ok ts))
    (hall : ∀ s ∈ srcs, (goLastIndex s "Camera".data).isSome) :
    ts.length = srcs.length ∧ effs.countP isFfmpeg = srcs.length := by
  induction srcs generalizing effs ts with
  | nil =>
    rw [trimPass] at h
    cases h
    simp
  | cons src rest ih =>
    rw [trimPass] at h
    rcases hidx : goLastIndex src "Camera".data with _ | idx
    · exact absurd (hidx ▸ hall src (List.mem_cons_self _ _)) (by simp)
    · rw [hidx] at h
      simp only at h
      split at h
      · rcases hrec : trimPass env dur cd rest with ⟨e2, r2⟩
        rw [hrec] at h
        cases r2 with
        | error e => simp [Except.map] at h
        | ok ts2 =>
          simp only [Except.map] at h
          obtain ⟨he, ht⟩ := Prod.mk.injEq .. ▸ h
          cases ht
          obtain ⟨h1, h2⟩ := ih hrec (fun s hs => hall s (List.mem_cons_of_mem _ hs))
          constructor
          · simp [h1]
          · subst he
            simp [List.countP_append, List.countP_cons, isFfmpeg, h2]
      · cases h

theorem copyPass_mem {env : Env} {dir base : Str} {ts : List Str} {e : Effect}
    (h : e ∈ (copyPass env dir base ts).1) :
    ∃ s d, e = Effect.copyFile s d := by
  induction ts with
  | nil => simp [copyPass] at h
  | cons tf rest ih =>
    rw [copyPass] at h
    simp only at h
    split at h
    · split at h
      · split at h
        · rcases List.mem_cons.mp h with rfl | hl
          · exact ⟨_, _, rfl⟩
          · exact ih hl
        · rcases List.mem_cons.mp h with rfl | hl
          · exact ⟨_, _, rfl⟩
          · simp at hl
      · simp at h
    · simp at h

theorem copyPass_ok {env : Env} {dir base : Str} {ts : List Str}
    {effs : List Effect} {fs : List Str}
    (h : copyPass env dir base ts = (effs, .ok fs)) :
    fs.length = ts.length ∧
      ∀ f ∈ fs, ∃ cam, f = pathJoin dir (base ++ "_Camera".data ++ cam ++ ".mp4".data) := by
  induction ts generalizing effs fs with
  | nil =>
    rw [copyPass] at h
    cases h
    simp
  | cons tf rest ih =>
    rw [copyPass] at h
    simp only at h
    split at h
    · split at h
      · split at h
        · rcases hrec : copyPass env dir base rest with ⟨e2, r2⟩
          rw [hrec] at h
          cases r2 with
          | error e => simp [Except.map] at h
          | ok fs2 =>
            simp only [Except.map] at h
            obtain ⟨he, ht⟩ := Prod.mk.injEq .. ▸ h
            cases ht
            obtain ⟨h1, h2⟩ := ih hrec
            refine ⟨by simp [h1], ?_⟩
            intro f hf
            rcases List.mem_cons.mp hf with rfl | hf2
            · exact ⟨_, rfl⟩
            · exact h2 f hf2
        · cases h
      · cases h
    · cases h

theorem removePass_mem {env : Env} {srcs : List Str} {e : Effect}
    (h : e ∈ removePass env srcs) :
    (∃ p, e = Effect.removeFile p) ∨ (∃ m, e = Effect.warnLog m) := by
  induction srcs with
  | nil => simp [removePass] at h
  | cons s rest ih =>
    rw [removePass] at h
    rcases List.mem_append.mp h with hl | hr
    · split at hl
      · rcases List.mem_cons.mp hl with rfl | h2
        · exact Or.inl ⟨_, rfl⟩
        · simp at h2
      · rcases List.mem_cons.mp hl with rfl | h2
        · exact Or.inl ⟨_, rfl⟩
        · rcases List.mem_cons.mp h2 with rfl | h3
          · exact Or.inr ⟨_, rfl⟩
          · simp at h3
    · exact ih hr

theorem removePass_removeCount (env : Env) (srcs : List Str) :
    (removePass env srcs).countP isRemove = srcs.length := by
  induction srcs with
  | nil => simp [removePass]
  | cons s rest ih =>
    rw [removePass]
    split <;> simp [List.countP_append, List.countP_cons, isRemove, ih]

theorem trimPass_ready_zero (env : Env) (dur : Int) (cd : Str) (srcs : List Str) :
    (trimPass env dur cd srcs).1.countP isReadyStatus = 0 :=
  List.countP_eq_zero.mpr fun e he => by
    rcases trimPass_mem he with ⟨a, rfl⟩ | ⟨m, rfl⟩ <;> simp [isReadyStatus]

theorem trimPass_remove_zero (env : Env) (dur : Int) (cd : Str) (srcs : List Str) :
    (trimPass env dur cd srcs).1.countP isRemove = 0 :=
  List.countP_eq_zero.mpr fun e he => by
    rcases trimPass_mem he with ⟨a, rfl⟩ | ⟨m, rfl⟩ <;> simp [isRemove]

theorem trimPass_makeDir_zero (env : Env) (dur : Int) (cd : Str) (srcs : List Str) :
    (trimPass env dur cd srcs).1.countP isMakeDir = 0 :=
  List.countP_eq_zero.mpr fun e he => by
    rcases trimPass_mem he with ⟨a, rfl⟩ | ⟨m, rfl⟩ <;> simp [isMakeDir]

theorem trimPass_copy_zero (env : Env) (dur : Int) (cd : Str) (srcs : List Str) :
    (trimPass env dur cd srcs).1.countP isCopy = 0 :=
  List.countP_eq_zero.mpr fun e he => by
    rcases trimPass_mem he with ⟨a, rfl⟩ | ⟨m, rfl⟩ <;> simp [isCopy]

theorem copyPass_ready_zero (env : Env) (dir base : Str) (ts : List Str) :
    (copyPass env dir base ts).1.countP isReadyStatus = 0 :=
  List.countP_eq_zero.mpr fun e he => by
    rcases copyPass_mem he with ⟨s, d, rfl⟩; simp [isReadyStatus]

theorem copyPass_remove_zero (env : Env) (dir base : Str) (ts : List Str) :
    (copyPass env dir base ts).1.countP isRemove = 0 :=
  List.countP_eq_zero.mpr fun e he => by
    rcases copyPass_mem he with ⟨s, d, rfl⟩; simp [isRemove]

theorem copyPass_makeDir_zero (env : Env) (dir base : Str) (ts : List Str) :
    (copyPass env dir base ts).1.countP isMakeDir = 0 :=
  List.countP_eq_zero.mpr fun e he => by
    rcases copyPass_mem he with ⟨s, d, rfl⟩; simp [isMakeDir]

theorem copyPass_ffmpeg_zero (env : Env) (dir base : Str) (ts : List Str) :
    (copyPass env dir base ts).1.countP isFfmpeg = 0 :=
  List.countP_eq_zero.mpr fun e he => by
    rcases copyPass_mem he with ⟨s, d, rfl⟩; simp [isFfmpeg]

theorem removePass_ready_zero (env : Env) (srcs : List Str) :
    (removePass env srcs).countP isReadyStatus = 0 :=
  List.countP_eq_zero.mpr fun e he => by
    rcases removePass_mem he with ⟨p, rfl⟩ | ⟨m, rfl⟩ <;> simp [isReadyStatus]

theorem removePass_makeDir_zero (env : Env) (srcs : List Str) :
    (removePass env srcs).countP isMakeDir = 0 :=
  List.countP_eq_zero.mpr fun e he => by
    rcases removePass_mem he with ⟨p, rfl⟩ | ⟨m, rfl⟩ <;> simp [isMakeDir]

theorem removePass_ffmpeg_zero (env : Env) (srcs : List Str) :
    (removePass env srcs).countP isFfmpeg = 0 :=
  List.countP_eq_zero.mpr fun e he => by
    rcases removePass_mem he with ⟨p, rfl⟩ | ⟨m, rfl⟩ <;> simp [isFfmpeg]

theorem stopRecording_ok_inv {env : Env} {tr : List Effect} {fs : List Str}
    (h : stopRecording env = (tr, .ok fs)) :
    ∃ e1 trimmed e2,
      trimPass env (trimDurationOf env) (captureDirOf env) (discoveredFiles env)
        = (e1, .ok trimmed) ∧
      copyPass env (sessionPathOf env) (attemptBaseName env) trimmed = (e2, .ok fs) ∧
      (discoveredFiles env).isEmpty = false ∧
      tr = [Effect.hotkey "OBS_KEY_F8", Effect.hotkey "OBS_KEY_F6", Effect.sleepSec 3] ++ e1 ++
        [Effect.makeDir (sessionPathOf env)] ++ e2 ++
        (Effect.sleepSec 5 :: removePass env (discoveredFiles env)) ++
        [Effect.status Phase.Ready ("Videos ready".data)] := by
  unfold stopRecording at h
  split at h
  · split at h
    · split at h
      · split at h
        · simp at h
        next hemp =>
          split at h
          next e1 e heq => simp at h
          next e1 trimmed heq =>
            split at h
            · split at h
              next e2 e heq2 => simp at h
              next e2 ffs heq2 =>
                injection h with h1 h2
                injection h2 with h2
                subst h1
                subst h2
                exact ⟨e1, trimmed, e2, heq, heq2, Bool.not_eq_true _ ▸ hemp, rfl⟩
            · simp at h
      · simp at h
    · simp at h
  · simp at h

theorem stopRecording_error_counts {env : Env} {tr : List Effect} {e : GoErr}
    (h : stopRecording env = (tr, .error e)) :
    tr.countP isReadyStatus = 0 ∧ tr.countP isRemove = 0 ∧
      tr.countP isFfmpeg ≤ (discoveredFiles env).length := by
  unfold stopRecording at h
  split at h
  · split at h
    · split at h
      · split at h
        · injection h with h1 h2
          subst h1
          simp [List.countP_cons, isReadyStatus, isRemove, isFfmpeg]
        next hemp =>
          split at h
          next e1 err heq =>
            injection h with h1 h2
            subst h1
            have hr := trimPass_ready_zero env (trimDurationOf env) (captureDirOf env)
              (discoveredFiles env)
            have hrem := trimPass_remove_zero env (trimDurationOf env) (captureDirOf env)
              (discoveredFiles env)
            have hff := trimPass_ffmpeg_le env (trimDurationOf env) (captureDirOf env)
              (discoveredFiles env)
            rw [heq] at hr hrem hff
            simp only [List.countP_append]
            refine ⟨?_, ?_, ?_⟩
            · simp [List.countP_cons, isReadyStatus, hr]
            · simp [List.countP_cons, isRemove, hrem]
            · simpa [List.countP_cons, isFfmpeg] using hff
          next e1 trimmed heq =>
            split at h
            · split at h
              next e2 err heq2 =>
                injection h with h1 h2
                subst h1
                have hr := trimPass_ready_zero env (trimDurationOf env) (captureDirOf env)
                  (discoveredFiles env)
                have hrem := trimPass_remove_zero env (trimDurationOf env) (captureDirOf env)
                  (discoveredFiles env)
                have hff := trimPass_ffmpeg_le env (trimDurationOf env) (captureDirOf env)
                  (discoveredFiles env)
                rw [heq] at hr hrem hff
                have hr2 := copyPass_ready_zero env (sessionPathOf env) (attemptBaseName env) trimmed
                have hrem2 := copyPass_remove_zero env (sessionPathOf env) (attemptBaseName env) trimmed
                have hff2 := copyPass_ffmpeg_zero env (sessionPathOf env) (attemptBaseName env) trimmed
                rw [heq2] at hr2 hrem2 hff2
                simp only [List.countP_append]
                refine ⟨?_, ?_, ?_⟩
                · simp [List.countP_cons, isReadyStatus, hr, hr2]
                · simp [List.countP_cons, isRemove, hrem, hrem2]
                · simpa [List.countP_cons, isFfmpeg, hff2] using hff
              next e2 ffs heq2 => simp at h
            · injection h with h1 h2
              subst h1
              have hr := trimPass_ready_zero env (trimDurationOf env) (captureDirOf env)
                (discoveredFiles env)
              have hrem := trimPass_remove_zero env (trimDurationOf env) (captureDirOf env)
                (discoveredFiles env)
              have hff := trimPass_ffmpeg_le env (trimDurationOf env) (captureDirOf env)
                (discoveredFiles env)
              rw [heq] at hr hrem hff
              simp only [List.countP_append]
              refine ⟨?_, ?_, ?_⟩
              · simp [List.countP_cons, isReadyStatus, hr, isMakeDir]
              · simp [List.countP_cons, isRemove, hrem]
              · simpa [List.countP_cons, isFfmpeg] using hff
      · injection h with h1 h2
        subst h1
        simp [List.countP_cons, isReadyStatus, isRemove, isFfmpeg]
    · injection h with h1 h2
      subst h1
      simp [List.countP_cons, isReadyStatus, isRemove, isFfmpeg]
  · injection h with h1 h2
    subst h1
    simp [List.countP_cons, isReadyStatus, isRemove, isFfmpeg]

theorem replaceAll_single_char (a b : Char) (s : Str) :
    replaceAll s [a] [b] = s.map (fun c => if c = a then b else c) := by
  unfold replaceAll
  induction s with
  | nil => rfl
  | cons c rest ih =>
    rw [List.length_cons, replaceAllFuel]
    by_cases hc : c = a
    · subst hc
      simp [List.isPrefixOf, ih]
    · simp [List.isPrefixOf, Ne.symm hc, hc, ih]

theorem stopRecording_ffmpeg_inv {env : Env} {a : List Str}
    (h : Effect.ffmpeg a ∈ (stopRecording env).1) :
    ∃ src dst, a = buildTrimmingArgs (trimDurationOf env) src dst := by
  rcases hsr : stopRecording env with ⟨tr, r⟩
  rw [hsr] at h
  simp only at h
  unfold stopRecording at hsr
  split at hsr
  · split at hsr
    · split at hsr
      · split at hsr
        · injection hsr with h1 h2
          subst h1
          simp at h
        · split at hsr
          next e1 err heq =>
            injection hsr with h1 h2
            subst h1
            simp at h
            exact trimPass_ffmpeg_args (by rw [heq]; exact h)
          next e1 trimmed heq =>
            split at hsr
            · split at hsr
              next e2 err heq2 =>
                injection hsr with h1 h2
                subst h1
                simp at h
                rcases h with h | h
                · exact trimPass_ffmpeg_args (by rw [heq]; exact h)
                · rcases copyPass_mem (by rw [heq2]; exact h) with ⟨s, d, hsd⟩
                  cases hsd
              next e2 ffs heq2 =>
                injection hsr with h1 h2
                subst h1
                simp at h
                rcases h with h | h | h
                · exact trimPass_ffmpeg_args (by rw [heq]; exact h)
                · rcases copyPass_mem (by rw [heq2]; exact h) with ⟨s, d, hsd⟩
                  cases hsd
                · rcases removePass_mem h with ⟨p, hp⟩ | ⟨m, hm⟩
                  · cases hp
                  · cases hm
            · injection hsr with h1 h2
              subst h1
              simp at h
              exact trimPass_ffmpeg_args (by rw [heq]; exact h)
      · injection hsr with h1 h2
        subst h1
        simp at h
    · injection hsr with h1 h2
      subst h1
      simp at h
  · injection hsr with h1 h2
    subst h1
    simp at h

theorem stopRecording_makeDir_inv {env : Env} {d : Str}
    (h : Effect.makeDir d ∈ (stopRecording env).1) :
    d = sessionPathOf env := by
  rcases hsr : stopRecording env with ⟨tr, r⟩
  rw [hsr] at h
  simp only at h
  unfold stopRecording at hsr
  split at hsr
  · split at hsr
    · split at hsr
      · split at hsr
        · injection hsr with h1 h2
          subst h1
          simp at h
        · split at hsr
          next e1 err heq =>
            injection hsr with h1 h2
            subst h1
            simp at h
            rcases trimPass_mem (by rw [heq]; exact h) with ⟨a, ha⟩ | ⟨m, hm⟩
            · cases ha
            · cases hm
          next e1 trimmed heq =>
            split at hsr
            · split at hsr
              next e2 err heq2 =>
                injection hsr with h1 h2
                subst h1
                simp at h
                rcases h with h | h | h
                · rcases trimPass_mem (by rw [heq]; exact h) with ⟨a, ha⟩ | ⟨m, hm⟩
                  · cases ha
                  · cases hm
                · exact h
                · rcases copyPass_mem (by rw [heq2]; exact h) with ⟨s, dd, hsd⟩
                  cases hsd
              next e2 ffs heq2 =>
                injection hsr with h1 h2
                subst h1
                simp at h
                rcases h with h | h | h | h
                · rcases trimPass_mem (by rw [heq]; exact h) with ⟨a, ha⟩ | ⟨m, hm⟩
                  · cases ha
                  · cases hm
                · exact h
                · rcases copyPass_mem (by rw [heq2]; exact h) with ⟨s, dd, hsd⟩
                  cases hsd
                · rcases removePass_mem h with ⟨p, hp⟩ | ⟨m, hm⟩
                  · cases hp
                  · cases hm
            · injection hsr with h1 h2
              subst h1
              simp at h
              rcases h with h | h
              · rcases trimPass_mem (by rw [heq]; exact h) with ⟨a, ha⟩ | ⟨m, hm⟩
                · cases ha
                · cases hm
              · exact h
      · injection hsr with h1 h2
        subst h1
        simp at h
    · injection hsr with h1 h2
      subst h1
      simp at h
  · injection hsr with h1 h2
    subst h1
    simp at h

/-! ### Concrete environments used to instantiate the claims -/

/-- A fully successful run: two camera files, athlete Jane Doe, session
Group A, start 1000 ms, stop 9000 ms, every external call succeeding. -/
def envOk : Env :=
  { userProfile := "U".data
    captureDirFiles := ["Camera1.flv".data, "Camera2.flv".data, "notes.txt".data]
    readDirOk := true
    hotkeyOk := fun _ => true
    ffmpegOk := fun _ => true
    mkdirOk := true
    openOk := fun _ => true
    createOk := fun _ => true
    copyOk := fun _ _ => true
    removeOk := fun _ => true
    lastStartTime := 1000
    lastTimerStopTime := 9000
    currentAthlete := "Jane Doe".data
    currentLiftType := "SNATCH".data
    currentAttempt := 1
    currentSession := "Group A".data
    videoDir := "V".data
    timestampStr := "TS".data }

/-- A run with no valid start time captured (LastStartTime = 0). -/
def envStartZero : Env :=
  { envOk with captureDirFiles := ["Camera1.flv".data], lastStartTime := 0 }

/-- A run whose ffmpeg invocations always fail. -/
def envFfmpegFail : Env :=
  { envOk with captureDirFiles := ["Camera1.flv".data], ffmpegOk := fun _ => false }

/-- A run whose captures directory holds no camera file. -/
def envNoFiles : Env := { envOk with captureDirFiles := ["notes.txt".data] }

/-! ### The claims -/

/-- Claim C1 (confirmed).  StopRecording computes the trim duration as
stopTimeMs - startTimeMs - 5000; every ffmpeg invocation it performs uses
buildTrimmingArgs with exactly that duration, and the resulting argument list
carries a seek of offset/1000 seconds exactly when the clamped offset
max(0, stopTimeMs - startTimeMs - 5000) is positive (the unclamped duration
is positive exactly when the clamped one is, and they then coincide, so the
code's unclamped test matches the claim's max-formulation observably).  For
startTimeMs = 1000 and stopTimeMs = 9000 the seek is 3 seconds. -/
theorem claim1_trim_offset_and_seek (env : Env) (cur fin : Str) :
    buildTrimmingArgs (trimDurationOf env) cur fin =
      (if 0 < max 0 (env.lastTimerStopTime - env.lastStartTime - 5000) then
        ["-y".data, "-ss".data,
         intToStr (max 0 (env.lastTimerStopTime - env.lastStartTime - 5000) / 1000),
         "-i".data, cur, "-c".data, "copy".data, fin]
       else ["-y".data, "-i".data, cur, "-c".data, "copy".data, fin]) ∧
    (∀ a, Effect.ffmpeg a ∈ (stopRecording env).1 →
      ∃ src dst, a = buildTrimmingArgs (trimDurationOf env) src dst) ∧
    buildTrimmingArgs ((9000 : Int) - 1000 - 5000) cur fin =
      ["-y".data, "-ss".data, "3".data, "-i".data, cur, "-c".data, "copy".data, fin] := by
  refine ⟨?_, fun a h => stopRecording_ffmpeg_inv h, by rfl⟩
  by_cases hpos : 0 < env.lastTimerStopTime - env.lastStartTime - 5000
  · rw [max_eq_right hpos.le]
    simp [buildTrimmingArgs, trimDurationOf, hpos]
  · rw [max_eq_left (by omega)]
    simp [buildTrimmingArgs, trimDurationOf, hpos]

/-- Witness for C1: in the concrete successful run the arguments of an actual
ffmpeg invocation of StopRecording are buildTrimmingArgs of the run's trim
duration. -/
theorem claim1_witness :
    ∃ src dst,
      ["-y".data, "-ss".data, "3".data, "-i".data, "U/Videos/Captures/Camera1.flv".data,
       "-c".data, "copy".data, "U/Videos/Captures/Camera1.mp4".data] =
        buildTrimmingArgs (trimDurationOf envOk) src dst :=
  (claim1_trim_offset_and_seek envOk [] []).2.1 _ (by decide)

/-- Claim C2 counterexample.  With startTimeMs = 0 the trim step is not
skipped and nothing is renamed: StopRecording still invokes the transcoder
(here exactly once, and even with a 4-second seek, since the duration becomes
stopTimeMs - 5000 = 4000), so the output is produced by ffmpeg, not by a
byte-identical rename. -/
theorem claim2_counterexample :
    envStartZero.lastStartTime = 0 ∧
    (stopRecording envStartZero).1.countP isFfmpeg = 1 ∧
    Effect.ffmpeg ["-y".data, "-ss".data, "4".data, "-i".data,
      "U/Videos/Captures/Camera1.flv".data, "-c".data, "copy".data,
      "U/Videos/Captures/Camera1.mp4".data] ∈ (stopRecording envStartZero).1 :=
  ⟨rfl, by decide, by decide⟩

/-- Claim C2 amended.  When startTimeMs = 0, discovered raw files are not
renamed and the trim step is not skipped: a successful StopRecording invokes
the transcoder exactly once per discovered file, with trim duration
stopTimeMs - 5000 (so a seek is even included when stopTimeMs > 5000). -/
theorem claim2_amended {env : Env} {tr : List Effect} {fs : List Str}
    (h0 : env.lastStartTime = 0) (h : stopRecording env = (tr, .ok fs)) :
    tr.countP isFfmpeg = (discoveredFiles env).length ∧
    ∀ a, Effect.ffmpeg a ∈ tr →
      ∃ src dst, a = buildTrimmingArgs (env.lastTimerStopTime - 5000) src dst := by
  obtain ⟨e1, trimmed, e2, heq, heq2, hemp, htr⟩ := stopRecording_ok_inv h
  obtain ⟨hlen, hcount⟩ := trimPass_ok heq (fun s hs => discoveredFiles_lastIndex env hs)
  constructor
  · subst htr
    have h2 := copyPass_ffmpeg_zero env (sessionPathOf env) (attemptBaseName env) trimmed
    rw [heq2] at h2
    have h3 := removePass_ffmpeg_zero env (discoveredFiles env)
    simp [List.countP_append, List.countP_cons, isFfmpeg, hcount, h2, h3]
  · intro a ha
    have hmem : Effect.ffmpeg a ∈ (stopRecording env).1 := by rw [h]; exact ha
    obtain ⟨src, dst, hsd⟩ := stopRecording_ffmpeg_inv hmem
    refine ⟨src, dst, ?_⟩
    rw [hsd]
    unfold trimDurationOf
    rw [h0]
    norm_num

/-- Witness for C2 amended: the concrete zero-start run invokes ffmpeg once
per discovered file. -/
theorem claim2_witness :
    (stopRecording envStartZero).1.countP isFfmpeg = (discoveredFiles envStartZero).length :=
  (claim2_amended rfl
    (Prod.ext rfl (by decide :
      (stopRecording envStartZero).2 =
        .ok ["V/Group_A/TS_Jane_Doe_SNATCH_attempt1_Camera1.mp4".data]))).1

/-- Claim C3 counterexample.  There is no retry: in a run whose ffmpeg
invocation always fails, StopRecording invokes the transcoder exactly once
(not up to 5 times), fails with the trim error, and removes no raw file. -/
theorem claim3_counterexample :
    (stopRecording envFfmpegFail).1.countP isFfmpeg = 1 ∧
    (stopRecording envFfmpegFail).2 = .error (GoErr.trimErr "1".data) ∧
    (stopRecording envFfmpegFail).1.countP isRemove = 0 :=
  ⟨by decide, by decide, by decide⟩

/-- Claim C3 amended.  Each camera file's transcoder invocation is attempted
at most once (exactly once per discovered file on success) — there is no
retry loop or delay; any failure aborts StopRecording with an error and then
no raw file removal is attempted at all; when everything succeeds, one
removal is attempted per raw file (a failed removal is only a warning). -/
theorem claim3_amended (env : Env) {tr : List Effect} {r : Except GoErr (List Str)}
    (h : stopRecording env = (tr, r)) :
    tr.countP isFfmpeg ≤ (discoveredFiles env).length ∧
    (∀ e, r = .error e → tr.countP isRemove = 0) ∧
    (∀ fs, r = .ok fs → tr.countP isFfmpeg = (discoveredFiles env).length ∧
      tr.countP isRemove = (discoveredFiles env).length) := by
  cases r with
  | error e =>
    obtain ⟨hr, hrem, hff⟩ := stopRecording_error_counts h
    refine ⟨hff, fun _ _ => hrem, ?_⟩
    intro fs hfs
    simp at hfs
  | ok fs =>
    obtain ⟨e1, trimmed, e2, heq, heq2, hemp, htr⟩ := stopRecording_ok_inv h
    subst htr
    obtain ⟨hlen, hcount⟩ := trimPass_ok heq (fun s hs => discoveredFiles_lastIndex env hs)
    have hcp := copyPass_ffmpeg_zero env (sessionPathOf env) (attemptBaseName env) trimmed
    rw [heq2] at hcp
    have hrp := removePass_ffmpeg_zero env (discoveredFiles env)
    have hr1 := trimPass_remove_zero env (trimDurationOf env) (captureDirOf env)
      (discoveredFiles env)
    rw [heq] at hr1
    have hr2 := copyPass_remove_zero env (sessionPathOf env) (attemptBaseName env) trimmed
    rw [heq2] at hr2
    have hr3 := removePass_removeCount env (discoveredFiles env)
    have hffeq : (([Effect.hotkey "OBS_KEY_F8", Effect.hotkey "OBS_KEY_F6",
        Effect.sleepSec 3] ++ e1 ++ [Effect.makeDir (sessionPathOf env)] ++ e2 ++
        (Effect.sleepSec 5 :: removePass env (discoveredFiles env)) ++
        [Effect.status Phase.Ready ("Videos ready".data)]).countP isFfmpeg)
        = (discoveredFiles env).length := by
      simp [List.countP_append, List.countP_cons, isFfmpeg, hcount, hcp, hrp]
    have hremeq : (([Effect.hotkey "OBS_KEY_F8", Effect.hotkey "OBS_KEY_F6",
        Effect.sleepSec 3] ++ e1 ++ [Effect.makeDir (sessionPathOf env)] ++ e2 ++
        (Effect.sleepSec 5 :: removePass env (discoveredFiles env)) ++
        [Effect.status Phase.Ready ("Videos ready".data)]).countP isRemove)
        = (discoveredFiles env).length := by
      simp [List.countP_append, List.countP_cons, isRemove, hr1, hr2, hr3]
    refine ⟨le_of_eq hffeq, ?_, ?_⟩
    · intro e he
      simp at he
    · intro fs2 hfs2
      cases hfs2
      exact ⟨hffeq, hremeq⟩

/-- Witness for C3 amended: the concrete successful run performs one ffmpeg
invocation and one removal per discovered file. -/
theorem claim3_witness :
    (stopRecording envOk).1.countP isFfmpeg = (discoveredFiles envOk).length ∧
    (stopRecording envOk).1.countP isRemove = (discoveredFiles envOk).length :=
  (claim3_amended envOk rfl).2.2
    ["V/Group_A/TS_Jane_Doe_SNATCH_attempt1_Camera1.mp4".data,
     "V/Group_A/TS_Jane_Doe_SNATCH_attempt1_Camera2.mp4".data] (by decide)

/-- Claim C4 (confirmed).  The Ready status is published at most once per
attempt, only as the very last effect after every discovered camera file has
been processed, and a failed attempt (hotkey failure, read failure, zero
files, trim failure, directory-creation failure or copy failure) never
publishes Ready. -/
theorem claim4_ready_once (env : Env) {tr : List Effect} {r : Except GoErr (List Str)}
    (h : stopRecording env = (tr, r)) :
    tr.countP isReadyStatus ≤ 1 ∧
    (∀ e, r = .error e → tr.countP isReadyStatus = 0) ∧
    (∀ fs, r = .ok fs →
      ∃ pre, tr = pre ++ [Effect.status Phase.Ready ("Videos ready".data)] ∧
        pre.countP isReadyStatus = 0) := by
  cases r with
  | error e =>
    obtain ⟨hr, _, _⟩ := stopRecording_error_counts h
    refine ⟨by omega, fun _ _ => hr, ?_⟩
    intro fs hfs
    simp at hfs
  | ok fs =>
    obtain ⟨e1, trimmed, e2, heq, heq2, hemp, htr⟩ := stopRecording_ok_inv h
    subst htr
    have h1 := trimPass_ready_zero env (trimDurationOf env) (captureDirOf env)
      (discoveredFiles env)
    rw [heq] at h1
    have h2 := copyPass_ready_zero env (sessionPathOf env) (attemptBaseName env) trimmed
    rw [heq2] at h2
    have h3 := removePass_ready_zero env (discoveredFiles env)
    refine ⟨?_, ?_, ?_⟩
    · simp [List.countP_append, List.countP_cons, isReadyStatus, h1, h2, h3]
    · intro e he
      simp at he
    · intro fs2 hfs2
      refine ⟨[Effect.hotkey "OBS_KEY_F8", Effect.hotkey "OBS_KEY_F6", Effect.sleepSec 3] ++
        e1 ++ [Effect.makeDir (sessionPathOf env)] ++ e2 ++
        (Effect.sleepSec 5 :: removePass env (discoveredFiles env)), ?_, ?_⟩
      · simp [List.append_assoc]
      · simp [List.countP_append, List.countP_cons, isReadyStatus, h1, h2, h3]

/-- Witness for C4: in the concrete successful run, Ready is the final effect
and no Ready precedes it. -/
theorem claim4_witness :
    ∃ pre, (stopRecording envOk).1 =
        pre ++ [Effect.status Phase.Ready ("Videos ready".data)] ∧
      pre.countP isReadyStatus = 0 :=
  (claim4_ready_once envOk rfl).2.2
    ["V/Group_A/TS_Jane_Doe_SNATCH_attempt1_Camera1.mp4".data,
     "V/Group_A/TS_Jane_Doe_SNATCH_attempt1_Camera2.mp4".data] (by decide)

/-- Claim C5 (confirmed).  A successful StopRecording with N discovered raw
files yields exactly N final artifacts; every artifact lives in the session
directory and is named attemptBaseName_Camera*cam*.mp4, where
attemptBaseName is the single timestamp_athlete_liftType_attemptN stem
(athlete spaces replaced by underscores, timestamp taken once per attempt and
shared), so the artifacts of one attempt differ only in the camera index. -/
theorem claim5_artifact_names {env : Env} {tr : List Effect} {fs : List Str}
    (h : stopRecording env = (tr, .ok fs)) :
    fs.length = (discoveredFiles env).length ∧
    ∀ f ∈ fs, ∃ cam, f = pathJoin (sessionPathOf env)
      (attemptBaseName env ++ "_Camera".data ++ cam ++ ".mp4".data) := by
  obtain ⟨e1, trimmed, e2, heq, heq2, hemp, htr⟩ := stopRecording_ok_inv h
  obtain ⟨hlen, _⟩ := trimPass_ok heq (fun s hs => discoveredFiles_lastIndex env hs)
  obtain ⟨hlen2, hshape⟩ := copyPass_ok heq2
  exact ⟨hlen2.trans hlen, hshape⟩

/-- Witness for C5: a concrete artifact of the successful run has the shared
stem and a camera index. -/
theorem claim5_witness :
    ∃ cam, ("V/Group_A/TS_Jane_Doe_SNATCH_attempt1_Camera1.mp4".data : Str) =
      pathJoin (sessionPathOf envOk)
        (attemptBaseName envOk ++ "_Camera".data ++ cam ++ ".mp4".data) :=
  (claim5_artifact_names (Prod.ext rfl (by decide :
      (stopRecording envOk).2 =
        .ok ["V/Group_A/TS_Jane_Doe_SNATCH_attempt1_Camera1.mp4".data,
             "V/Group_A/TS_Jane_Doe_SNATCH_attempt1_Camera2.mp4".data]))).2
    _ (by decide)

/-- Claim C6 (confirmed).  When the stop hotkeys succeed and the directory
listing succeeds but discovers zero camera files, StopRecording fails with
the file-discovery error after only the two hotkeys and the settle delay:
no artifact-producing effect (ffmpeg, copy) occurs and Ready is never
published; the function returns, leaving the orchestrator idle. -/
theorem claim6_no_files (env : Env) (h8 : env.hotkeyOk "OBS_KEY_F8" = true)
    (h6 : env.hotkeyOk "OBS_KEY_F6" = true) (hrd : env.readDirOk = true)
    (hemp : discoveredNames env = []) :
    stopRecording env =
      ([Effect.hotkey "OBS_KEY_F8", Effect.hotkey "OBS_KEY_F6", Effect.sleepSec 3],
       .error GoErr.noCameraFiles) ∧
    (stopRecording env).1.countP isReadyStatus = 0 ∧
    (stopRecording env).1.countP isCopy = 0 ∧
    (stopRecording env).1.countP isFfmpeg = 0 := by
  have hmain : stopRecording env =
      ([Effect.hotkey "OBS_KEY_F8", Effect.hotkey "OBS_KEY_F6", Effect.sleepSec 3],
       .error GoErr.noCameraFiles) := by
    unfold stopRecording
    simp [h8, h6, hrd, discoveredFiles, hemp]
  refine ⟨hmain, ?_, ?_, ?_⟩ <;> rw [hmain] <;> decide

/-- Witness for C6: the concrete run with no camera files. -/
theorem claim6_witness :
    stopRecording envNoFiles =
      ([Effect.hotkey "OBS_KEY_F8", Effect.hotkey "OBS_KEY_F6", Effect.sleepSec 3],
       .error GoErr.noCameraFiles) :=
  (claim6_no_files envNoFiles (by decide) (by decide) (by decide) (by decide)).1

/-- Claim C7 (confirmed).  The destination directory is
videoRoot/sanitize(session): sanitization maps every space to an underscore
(proved against the character-wise specification of ReplaceAll) and the
empty session name maps to unsorted; Group A yields Group_A, the empty name
yields unsorted, and every directory created by StopRecording is exactly
videoRoot/sanitized-session. -/
theorem claim7_session_directory :
    (∀ s : Str, sessionDirName s =
      (if s = [] then "unsorted".data else s).map (fun c => if c = ' ' then '_' else c)) ∧
    sessionDirName [] = "unsorted".data ∧
    sessionDirName ("Group A".data) = "Group_A".data ∧
    (∀ (env : Env) (d : Str), Effect.makeDir d ∈ (stopRecording env).1 →
      d = pathJoin env.videoDir (sessionDirName env.currentSession)) := by
  refine ⟨?_, by decide, by decide, ?_⟩
  · intro s
    unfold sessionDirName
    exact replaceAll_single_char ' ' '_' _
  · intro env d h
    simpa [sessionPathOf] using stopRecording_makeDir_inv h

/-- Witness for C7: the directory created in the concrete run is
videoRoot/Group_A. -/
theorem claim7_witness :
    ("V/Group_A".data : Str) =
      pathJoin envOk.videoDir (sessionDirName envOk.currentSession) :=
  claim7_session_directory.2.2.2 envOk ("V/Group_A".data) (by decide)

/-- Claim C8 counterexample.  For the positive offset 3000 ms the built
argument list is exactly -y -ss 3 -i input -c copy output: it carries the
stream-copy flags and the seek, but no fast-start output-container flag
(no -movflags argument and no argument containing faststart) — the claim's
fast-start conjunct is false. -/
theorem claim8_counterexample :
    buildTrimmingArgs 3000 ("in.flv".data) ("out.mp4".data) =
      ["-y".data, "-ss".data, "3".data, "-i".data, "in.flv".data, "-c".data, "copy".data,
       "out.mp4".data] ∧
    ((buildTrimmingArgs 3000 ("in.flv".data) ("out.mp4".data)).all
      (fun s => !(goContains s ("faststart".data)) && !(s == "-movflags".data))) = true :=
  ⟨by decide, by decide⟩

/-- Claim C8 amended.  For every positive trim offset the transcoder argument
list is exactly -y, -ss offset/1000, -i input, -c copy, output: a seek before
the input and stream-copy codec flags, but no fast-start flag of any kind. -/
theorem claim8_amended (d : Int) (cur fin : Str) (hd : 0 < d) :
    buildTrimmingArgs d cur fin =
      ["-y".data, "-ss".data, intToStr (d / 1000), "-i".data, cur, "-c".data, "copy".data,
       fin] := by
  simp [buildTrimmingArgs, hd]

/-- Witness for C8 amended at offset 3000. -/
theorem claim8_witness :
    buildTrimmingArgs 3000 ("a.flv".data) ("b.mp4".data) =
      ["-y".data, "-ss".data, intToStr ((3000 : Int) / 1000), "-i".data, "a.flv".data,
       "-c".data, "copy".data, "b.mp4".data] :=
  claim8_amended 3000 ("a.flv".data) ("b.mp4".data) (by norm_num)

/-- Claim C9 counterexample.  The Identify message actually written on
connect is not exactly op 1 with payload rpcVersion only: sendMessage
injects a requestId field into the payload before writing, so the sent
payload has the two fields rpcVersion and requestId. -/
theorem claim9_counterexample :
    dFieldNames (sendIdentify 0).2 = some ["rpcVersion", "requestId"] ∧
    (sendIdentify 0).2 ≠ identifyMsg := by
  refine ⟨rfl, ?_⟩
  intro h
  have h2 := congrArg dFieldNames h
  simp [dFieldNames, lookupField, objFieldNames, sendIdentify, sendMessage, identifyMsg,
    addRequestId, setField] at h2

/-- Claim C9 amended.  On connect the Identify message sent is op 1 with
payload rpcVersion 1 plus a requestId field holding the incremented request
counter; on a fresh client (counter 0) the requestId is the string 1. -/
theorem claim9_amended :
    (∀ n : Int, (sendIdentify n).2 =
      .obj [("op", .num 1),
            ("d", .obj [("rpcVersion", .num 1), ("requestId", .str (toString (n + 1)))])]) ∧
    (sendIdentify 0).2 =
      .obj [("op", .num 1),
            ("d", .obj [("rpcVersion", .num 1), ("requestId", .str "1")])] := by
  exact ⟨fun n => rfl, rfl⟩

/-- Claim C10 (confirmed).  With the NoVideo flag set, ForceStopRecordings
sends no hotkey to the capture tool at all (it only logs simulated stops);
and whatever the flag or the hotkey outcome, it finishes without an error. -/
theorem claim10_force_stop (fileNames : List Str) (hotkeyOk : String → Bool) (nv : Bool) :
    (forceStopRecordings nv fileNames hotkeyOk).2 = .ok () ∧
    (forceStopRecordings true fileNames hotkeyOk).1.countP isHotkey = 0 := by
  constructor
  · cases nv
    · by_cases hk : hotkeyOk "OBS_KEY_F8" <;> simp [forceStopRecordings, hk]
    · simp [forceStopRecordings]
  · refine List.countP_eq_zero.mpr ?_
    intro e he
    have hlist : (forceStopRecordings true fileNames hotkeyOk).1 =
        fileNames.enum.map (fun p =>
          Effect.infoLog ("Simulating forced stop recording video for Camera ".data ++
            natToStr (p.1 + 1) ++ ": ".data ++ p.2)) := by
      simp [forceStopRecordings]
    rw [hlist] at he
    rcases List.mem_map.mp he with ⟨p, hp, rfl⟩
    simp [isHotkey]
